import Mathlib

/-!
Shallow embedding of `src/whisper_audio_overlay.py` (audiotee + whisper.cpp
subtitle overlay): the sliding-window segmentation loop (`audio_worker`),
the dedup filter, the transcription-adapter boundary (`run_whisper_cpp`,
`segment_episode`), SRT duration estimation (`_parse_srt_duration`),
episode-name sanitization, and the recording-session controller
(`start_recording` / `stop_recording`).

Conventions: 16-bit PCM bytes are modelled as `List Nat` (each entry < 256),
normalized samples as `List ℚ` (the Python code uses float arithmetic; every
quantity the theorems below touch is exactly representable, so ℚ is a
faithful carrier). External processes (audiotee, whisper.cpp, ffmpeg) are
modelled at their boundary: the byte chunks they emit, their exit codes, and
the output files they produce are inputs to the embedded functions.
-/

/-! ### Configuration constants (module-level CONFIG block of the source) -/

/-- `SAMPLE_RATE = 16000`. -/
def SAMPLE_RATE : ℕ := 16000

/-- `CHUNK_SEC = 2.0` (AudioTee chunk duration, seconds). -/
def CHUNK_SEC : ℚ := 2

/-- `SEGMENT_SEC = 12.0` (audio length sent to whisper.cpp, seconds). -/
def SEGMENT_SEC : ℚ := 12

/-- `STEP_SEC = 6.0` (hop size, seconds). -/
def STEP_SEC : ℚ := 6

/-- `segment_samples = int(SEGMENT_SEC * SAMPLE_RATE)` from `audio_worker`. -/
def segment_samples : ℕ := (SEGMENT_SEC * (SAMPLE_RATE : ℚ)).floor.toNat

/-- `step_samples = int(STEP_SEC * SAMPLE_RATE)` from `audio_worker`. -/
def step_samples : ℕ := (STEP_SEC * (SAMPLE_RATE : ℚ)).floor.toNat

/-- `chunk_bytes = int(SAMPLE_RATE * CHUNK_SEC * bytes_per_sample)` with
`bytes_per_sample = 2`, from `audio_worker`. -/
def chunk_bytes : ℕ := ((SAMPLE_RATE : ℚ) * CHUNK_SEC * 2).floor.toNat

/-! ### Byte-to-sample conversion

`np.frombuffer(raw, dtype="<i2")` reads consecutive little-endian byte pairs
as signed 16-bit integers; `astype(np.float32) / 32768.0` normalizes. -/

/-- Signed 16-bit value of a little-endian byte pair. -/
def i16OfBytes (lo hi : ℕ) : ℤ :=
  let u : ℕ := lo % 256 + 256 * (hi % 256)
  if u < 32768 then (u : ℤ) else (u : ℤ) - 65536

/-- `pcm_i16.astype(np.float32) / 32768.0` applied to a raw byte chunk:
consecutive little-endian pairs become normalized samples in [-1, 1). -/
def bytesToSamples : List ℕ → List ℚ
  | lo :: hi :: rest => ((i16OfBytes lo hi : ℚ) / 32768) :: bytesToSamples rest
  | _ => []

/-! ### The inner while-loop of `audio_worker`

```
while buffer.shape[0] >= segment_samples:
    segment = buffer[:segment_samples]
    ... run_whisper_cpp(segment, ...) ...
    buffer = buffer[step_samples:]
```

The loop is embedded as three observations of the same iteration, all
recursing exactly as the loop does (guard `segment_samples ≤ len(buffer)`,
step `buffer = buffer[step_samples:]`): `drainSegs` collects the
`(start offset, segment)` pairs handed to `run_whisper_cpp` (offset =
position of the buffer head in the overall stream, in samples), `drainRest`
is the buffer retained when the loop exits, `drainPos` the stream offset of
its head, and `drainTrace` records `len(buffer)` immediately after each
emission's shift. -/

/-- Emitted `(stream offset, segment)` pairs of the while-loop. -/
def drainSegs (buf : List ℚ) (pos : ℕ) : List (ℕ × List ℚ) :=
  if segment_samples ≤ buf.length then
    (pos, buf.take segment_samples) ::
      drainSegs (buf.drop step_samples) (pos + step_samples)
  else
    []
termination_by buf.length
decreasing_by
  have hs : segment_samples = 192000 := by
    norm_num [segment_samples, SEGMENT_SEC, SAMPLE_RATE]; decide
  have ht : step_samples = 96000 := by
    norm_num [step_samples, STEP_SEC, SAMPLE_RATE]; decide
  simp only [List.length_drop]
  omega

/-- Buffer retained when the while-loop exits. -/
def drainRest (buf : List ℚ) : List ℚ :=
  if segment_samples ≤ buf.length then drainRest (buf.drop step_samples)
  else buf
termination_by buf.length
decreasing_by
  have hs : segment_samples = 192000 := by
    norm_num [segment_samples, SEGMENT_SEC, SAMPLE_RATE]; decide
  have ht : step_samples = 96000 := by
    norm_num [step_samples, STEP_SEC, SAMPLE_RATE]; decide
  simp only [List.length_drop]
  omega

/-- Stream offset of the buffer head when the while-loop exits. -/
def drainPos (buf : List ℚ) (pos : ℕ) : ℕ :=
  if segment_samples ≤ buf.length then
    drainPos (buf.drop step_samples) (pos + step_samples)
  else pos
termination_by buf.length
decreasing_by
  have hs : segment_samples = 192000 := by
    norm_num [segment_samples, SEGMENT_SEC, SAMPLE_RATE]; decide
  have ht : step_samples = 96000 := by
    norm_num [step_samples, STEP_SEC, SAMPLE_RATE]; decide
  simp only [List.length_drop]
  omega

/-- Post-emission buffer sizes of the same while-loop: one entry per emitted
segment, recording `len(buffer)` right after `buffer = buffer[step_samples:]`
runs. -/
def drainTrace (buf : List ℚ) : List ℕ :=
  if segment_samples ≤ buf.length then
    (buf.drop step_samples).length :: drainTrace (buf.drop step_samples)
  else
    []
termination_by buf.length
decreasing_by
  have hs : segment_samples = 192000 := by
    norm_num [segment_samples, SEGMENT_SEC, SAMPLE_RATE]; decide
  have ht : step_samples = 96000 := by
    norm_num [step_samples, STEP_SEC, SAMPLE_RATE]; decide
  simp only [List.length_drop]
  omega

/-! ### The chunk-read loop of `audio_worker`

```
while not stop_event.is_set():
    raw = proc.stdout.read(chunk_bytes)
    if not raw: break
    pcm_i16 = np.frombuffer(raw, dtype="<i2")
    audio = pcm_i16.astype(np.float32) / 32768.0
    buffer = np.concatenate([buffer, audio])
    while buffer.shape[0] >= segment_samples: ...
```

`chunks` is the sequence of byte strings successive `read` calls return; the
end of the list (or an empty chunk) is EOF, at which point the loop breaks
and `audio_worker` terminates. `stop_event` is never set in the scenarios
the claims describe (the loop runs until end-of-stream), so it is not part
of the model. -/

/-- All `(stream offset, segment)` pairs `audio_worker` passes to
`run_whisper_cpp`, starting from buffer `buf` whose head sits at stream
offset `pos`. -/
def audioWorkerSegs : List (List ℕ) → List ℚ → ℕ → List (ℕ × List ℚ)
  | [], _, _ => []
  | raw :: rest, buf, pos =>
    if raw = [] then []
    else
      let audio := bytesToSamples raw
      drainSegs (buf ++ audio) pos ++
        audioWorkerSegs rest (drainRest (buf ++ audio))
          (drainPos (buf ++ audio) pos)

/-- `audio_worker`'s transcription calls for a whole capture stream
(initial buffer `np.zeros(0)`, stream offset 0). -/
def audio_worker_segments (chunks : List (List ℕ)) : List (ℕ × List ℚ) :=
  audioWorkerSegs chunks [] 0

/-- Post-emission buffer sizes over a whole `audio_worker` run. -/
def audioWorkerTrace : List (List ℕ) → List ℚ → List ℕ
  | [], _ => []
  | raw :: rest, buf =>
    if raw = [] then []
    else
      let audio := bytesToSamples raw
      drainTrace (buf ++ audio) ++
        audioWorkerTrace rest (drainRest (buf ++ audio))

/-- Post-emission buffer sizes of `audio_worker`, from the empty buffer. -/
def audio_worker_trace (chunks : List (List ℕ)) : List ℕ :=
  audioWorkerTrace chunks []

/-! ### Length-level model

The emission offsets, the trace and the retained buffer size depend only on
the sizes involved, never on sample values; the next definitions compute the
same data from lengths alone, which lets concrete scenarios be evaluated
without touching 192000-element lists. `192000` and `96000` are
`segment_samples` and `step_samples` (proved below). -/

/-- Length-level image of `drainSegs`: offsets emitted. -/
def drainLenOffs (n pos : ℕ) : List ℕ :=
  if 192000 ≤ n then pos :: drainLenOffs (n - 96000) (pos + 96000) else []
termination_by n
decreasing_by omega

/-- Length-level image of `drainRest`: retained buffer size. -/
def drainLenRest (n : ℕ) : ℕ :=
  if 192000 ≤ n then drainLenRest (n - 96000) else n
termination_by n
decreasing_by omega

/-- Length-level image of `drainPos`: head offset after draining. -/
def drainLenPos (n pos : ℕ) : ℕ :=
  if 192000 ≤ n then drainLenPos (n - 96000) (pos + 96000) else pos
termination_by n
decreasing_by omega

/-- Length-level image of `drainTrace`. -/
def traceLen (n : ℕ) : List ℕ :=
  if 192000 ≤ n then (n - 96000) :: traceLen (n - 96000) else []
termination_by n
decreasing_by omega

/-- Length-level image of `audioWorkerSegs` (chunk byte counts only). -/
def runLen : List ℕ → ℕ → ℕ → List ℕ
  | [], _, _ => []
  | c :: rest, n, pos =>
    if c = 0 then []
    else
      drainLenOffs (n + c / 2) pos ++
        runLen rest (drainLenRest (n + c / 2)) (drainLenPos (n + c / 2) pos)

/-- Length-level image of `audioWorkerTrace`. -/
def runTraceLen : List ℕ → ℕ → List ℕ
  | [], _ => []
  | c :: rest, n =>
    if c = 0 then []
    else traceLen (n + c / 2) ++ runTraceLen rest (drainLenRest (n + c / 2))

/-! ### Fuel-indexed twins of the length-level model

Structurally recursive versions (fuel = an upper bound on the size argument)
whose values the kernel can evaluate on concrete inputs; proved equal to the
functions above. -/

/-- Fuel-indexed `drainLenOffs`. -/
def drainLenOffsF : ℕ → ℕ → ℕ → List ℕ
  | 0, _, _ => []
  | fuel + 1, n, pos =>
    if 192000 ≤ n then pos :: drainLenOffsF fuel (n - 96000) (pos + 96000)
    else []

/-- Fuel-indexed `drainLenRest`. -/
def drainLenRestF : ℕ → ℕ → ℕ
  | 0, n => n
  | fuel + 1, n => if 192000 ≤ n then drainLenRestF fuel (n - 96000) else n

/-- Fuel-indexed `drainLenPos`. -/
def drainLenPosF : ℕ → ℕ → ℕ → ℕ
  | 0, _, pos => pos
  | fuel + 1, n, pos =>
    if 192000 ≤ n then drainLenPosF fuel (n - 96000) (pos + 96000) else pos

/-- Fuel-indexed `traceLen`. -/
def traceLenF : ℕ → ℕ → List ℕ
  | 0, _ => []
  | fuel + 1, n => if 192000 ≤ n then (n - 96000) :: traceLenF fuel (n - 96000) else []

/-- `runLen` via the fuel-indexed functions. -/
def runLenF : List ℕ → ℕ → ℕ → List ℕ
  | [], _, _ => []
  | c :: rest, n, pos =>
    if c = 0 then []
    else
      drainLenOffsF (n + c / 2) (n + c / 2) pos ++
        runLenF rest (drainLenRestF (n + c / 2) (n + c / 2))
          (drainLenPosF (n + c / 2) (n + c / 2) pos)

/-- `runTraceLen` via the fuel-indexed functions. -/
def runTraceLenF : List ℕ → ℕ → List ℕ
  | [], _ => []
  | c :: rest, n =>
    if c = 0 then []
    else
      traceLenF (n + c / 2) (n + c / 2) ++
        runTraceLenF rest (drainLenRestF (n + c / 2) (n + c / 2))

/-! ### Dedup filter

From the body of `audio_worker`'s inner loop:

```
if text and text != last_line:
    last_line = text
    text_queue.put(text)
```

`last_line` starts as `""`. `dedupAccept last text` returns whether the text
is forwarded to the transcript queue, together with the new `last_line`. -/

/-- One step of the dedup filter. -/
def dedupAccept (last text : String) : Bool × String :=
  if text ≠ "" ∧ text ≠ last then (true, text) else (false, last)

/-! ### Text cleanup shared helpers -/

/-- ASCII whitespace, as matched by Python `str.strip()` / regex `\s` (the
Python versions also accept non-ASCII Unicode whitespace; every input in
this file is ASCII, where the two agree). -/
def isPySpace (c : Char) : Bool :=
  c = ' ' || c = '\t' || c = '\n' || c = '\x0b' || c = '\x0c' || c = '\r'

/-- Python `str.strip()` on a character list: drop whitespace from both
ends. -/
def stripChars (l : List Char) : List Char :=
  (l.dropWhile isPySpace).rdropWhile isPySpace

/-- Python `str.strip()`. -/
def pyStrip (s : String) : String := ⟨stripChars s.data⟩

/-- Python `s.replace(pat, "")` on character lists: scan left to right; at a
match of `pat`, delete it and continue after it; `pat = []` never occurs in
this file (Python's replace of the empty string behaves differently and the
denylist has no empty phrase). -/
def removeAllChars (pat : List Char) : List Char → List Char
  | [] => []
  | c :: rest =>
    if h : pat ≠ [] ∧ pat.isPrefixOf (c :: rest) then
      removeAllChars pat ((c :: rest).drop pat.length)
    else
      c :: removeAllChars pat rest
termination_by l => l.length
decreasing_by
  · have hp : pat.length ≤ (c :: rest).length :=
      List.IsPrefix.length_le (List.isPrefixOf_iff_prefix.mp h.2)
    have hone : 1 ≤ pat.length := by
      cases pat with
      | nil => exact absurd rfl h.1
      | cons a l => simp
    simp only [List.length_drop]
    simp only [List.length_cons] at *
    omega
  · simp

/-- Fuel-indexed twin of `removeAllChars` (structural recursion, so the
kernel can evaluate it on concrete inputs; proved equal below for
`fuel ≥ length`). -/
def removeAllCharsF : ℕ → List Char → List Char → List Char
  | 0, _, s => s
  | fuel + 1, pat, s =>
    match s with
    | [] => []
    | c :: rest =>
      if pat ≠ [] ∧ pat.isPrefixOf (c :: rest) then
        removeAllCharsF fuel pat ((c :: rest).drop pat.length)
      else
        c :: removeAllCharsF fuel pat rest

/-- Python `s.replace(g, "")` on strings. -/
def pyRemove (s g : String) : String := ⟨removeAllChars g.data s.data⟩

/-- `pyRemove` via the fuel-indexed twin (evaluable; proved equal below). -/
def pyRemoveF (s g : String) : String :=
  ⟨removeAllCharsF s.data.length g.data s.data⟩

/-- The `garbage_phrases` denylist from `run_whisper_cpp`. -/
def garbage_phrases : List String :=
  ["Subtitles by the Amara.org community",
   "Subtitles by Amara.org",
   "Subtitles by the community",
   "Thanks for watching!",
   "*music*",
   "* Badass music *"]

/-- The anti-hallucination cleanup block of `run_whisper_cpp`:

```
if text:
    for g in garbage_phrases:
        text = text.replace(g, "")
    text = text.strip()
```
-/
def cleanText (text : String) : String :=
  if text ≠ "" then pyStrip (garbage_phrases.foldl pyRemove text)
  else text

/-- `cleanText` via the fuel-indexed removal (evaluable; proved equal
below). -/
def cleanTextF (text : String) : String :=
  if text ≠ "" then pyStrip (garbage_phrases.foldl pyRemoveF text)
  else text

/-! ### Transcription-adapter boundary

`run_whisper_cpp` writes the segment to a temporary WAV, invokes whisper.cpp
and reads back `<wav>.txt`. The external engine is modelled by what crosses
the boundary: its exit status and the contents of the text file, if it wrote
one. The embedded function is total: every failure (nonzero exit, absent
file) is converted to a value, matching the source, where the only fallible
step (`open`) is wrapped in `try/except FileNotFoundError`. -/

/-- Observable outcome of one whisper.cpp invocation in segment mode. -/
structure EngineRun where
  returncode : ℤ
  /-- Contents of `wav_path + ".txt"` if the engine produced it. -/
  txtFile : Option String

/-- `run_whisper_cpp(segment, output_mode, lang_code)` with engine outcome
`eng`: read the text file (empty on `FileNotFoundError`), strip it, apply
the denylist cleanup. The segment and configuration determine only the
engine's command line, not what the Python function does with the engine's
outcome, so they are unused below. -/
def run_whisper_cpp (segment : List ℚ) (output_mode : String)
    (lang_code : Option String) (eng : EngineRun) : String :=
  let text :=
    match eng.txtFile with
    | some contents => pyStrip contents
    | none => ""
  cleanText text

/-- Observable outcome of one whisper.cpp invocation in file (SRT) mode. -/
structure FileEngineRun where
  returncode : ℤ
  /-- Whether `out_prefix + ".srt"` exists. -/
  exactSrt : Bool
  /-- `sorted(glob.glob(out_prefix + "*.srt"))`. -/
  globCandidates : List String

/-- `segment_episode(wav_path, lang_code, translate_to_english)` with engine
outcome `eng` and output prefix `outPref` (the source builds `outPref` from
the WAV base name and an `_en` suffix; path construction is not itself under
test). Returns the SRT path or `None`:

```
if not os.path.isfile(WHISPER_BIN): return None
if not os.path.isfile(WHISPER_MODEL): return None
...
if result.returncode != 0: return None
srt_path = out_prefix + ".srt"
if os.path.isfile(srt_path): return srt_path
candidates = sorted(glob.glob(out_prefix + "*.srt"))
if candidates: return candidates[0]
return None
```
-/
def segment_episode (whisperBinExists whisperModelExists : Bool)
    (outPref : String) (eng : FileEngineRun) : Option String :=
  if ¬ whisperBinExists then none
  else if ¬ whisperModelExists then none
  else if eng.returncode ≠ 0 then none
  else if eng.exactSrt then some (outPref ++ ".srt")
  else
    match eng.globCandidates with
    | c :: _ => some c
    | [] => none

/-! ### Subtitle duration estimation (`_parse_srt_duration`)

The source scans the file line by line, matching each stripped line against
`(\d+):(\d+):(\d+),(\d+)\s*-->\s*(\d+):(\d+):(\d+),(\d+)` with `re.match`
(prefix match, trailing characters allowed), and keeps the largest end time
`int(h2)*3600 + int(m2)*60 + int(s2) + int(ms2)/1000.0`. The regex classes
`\d`/`\s` are modelled on ASCII, where Python agrees (all inputs here are
ASCII). -/

/-- ASCII digit test (regex `\d`). -/
def isAsciiDigit (c : Char) : Bool := '0' ≤ c && c ≤ '9'

/-- Greedy run of digits, accumulating the decimal value (`int(...)` of the
matched group). -/
def parseDigitsAcc : List Char → ℕ → ℕ × List Char
  | c :: rest, acc =>
    if isAsciiDigit c then parseDigitsAcc rest (acc * 10 + (c.toNat - 48))
    else (acc, c :: rest)
  | [], acc => (acc, [])

/-- `\d+`: at least one digit, greedy. -/
def parseNum : List Char → Option (ℕ × List Char)
  | c :: rest =>
    if isAsciiDigit c then some (parseDigitsAcc rest (c.toNat - 48)) else none
  | [] => none

/-- A single required literal character. -/
def expectChar (ch : Char) : List Char → Option (List Char)
  | c :: rest => if c = ch then some rest else none
  | [] => none

/-- The literal `-->`. -/
def expectArrow : List Char → Option (List Char)
  | '-' :: '-' :: '>' :: rest => some rest
  | _ => none

/-- One `(\d+):(\d+):(\d+),(\d+)` timestamp: its value in seconds, combined
as the source does (`int(h)*3600 + int(m)*60 + int(s) + int(ms)/1000.0`),
and the unconsumed remainder of the line. -/
def parseTimeVal (l : List Char) : Option (ℚ × List Char) :=
  match parseNum l with
  | none => none
  | some (h, rest1) =>
    match expectChar ':' rest1 with
    | none => none
    | some rest2 =>
      match parseNum rest2 with
      | none => none
      | some (m, rest3) =>
        match expectChar ':' rest3 with
        | none => none
        | some rest4 =>
          match parseNum rest4 with
          | none => none
          | some (s, rest5) =>
            match expectChar ',' rest5 with
            | none => none
            | some rest6 =>
              match parseNum rest6 with
              | none => none
              | some (ms, rest7) =>
                some ((h : ℚ) * 3600 + (m : ℚ) * 60 + (s : ℚ) +
                  (ms : ℚ) / 1000, rest7)

/-- Prefix match of the timestamp-range regex against a (stripped) line,
returning the end time of the range in seconds — groups 5–8; the source
discards groups 1–4. `none` when the line does not match. Trailing
characters after the match are permitted (`re.match` is unanchored at the
end). -/
def matchEndTime (l : List Char) : Option ℚ :=
  match parseTimeVal l with
  | none => none
  | some (_, rest1) =>
    match expectArrow (rest1.dropWhile isPySpace) with
    | none => none
    | some rest2 =>
      match parseTimeVal (rest2.dropWhile isPySpace) with
      | none => none
      | some (t, _) => some t

/-- `_parse_srt_duration`, over the file's lines:

```
last_end = 0.0
for line in f:
    m = time_re.match(line.strip())
    if not m: continue
    t = ...
    if t > last_end: last_end = t
if last_end <= 0: last_end = 60.0
return last_end + 1.0
```
-/
def _parse_srt_duration (lines : List String) : ℚ :=
  let last_end := lines.foldl
    (fun last_end line =>
      match matchEndTime (stripChars line.data) with
      | none => last_end
      | some t => if t > last_end then t else last_end)
    0
  let final := if last_end ≤ 0 then (60 : ℚ) else last_end
  final + 1

/-- The spec's notion for the same scan: the maximum end timestamp over all
matching lines (0 when none matches), written independently of the fold in
`_parse_srt_duration`. -/
def srtMaxEnd (lines : List String) : ℚ :=
  (lines.filterMap (fun line => matchEndTime (stripChars line.data))).foldl
    max 0

/-! ### Episode-name sanitization (from `start_recording`)

```
safe_name_chars = []
for c in episode_name:
    if c.isalnum() or c in ("_", "-"):
        safe_name_chars.append(c)
    else:
        safe_name_chars.append("_")
safe_name = "".join(safe_name_chars).strip("_")
if not safe_name:
    safe_name = "episode"
```
-/

/-- Python `str.isalnum()` for a single character, modelled exactly on the
Latin-1 range U+0000–U+00FF (digits, ASCII letters, the Latin-1 letters
ª µ º À–ÿ except × and ÷, and the numeric characters ² ³ ¹ ¼ ½ ¾). Python's
`isalnum` is Unicode-aware; every character the theorems below touch lies in
Latin-1, where this table is exact; above Latin-1 the model returns false. -/
def pyIsAlnum (c : Char) : Bool :=
  decide ((48 ≤ c.toNat ∧ c.toNat ≤ 57) ∨ (65 ≤ c.toNat ∧ c.toNat ≤ 90) ∨
    (97 ≤ c.toNat ∧ c.toNat ≤ 122) ∨
    c.toNat = 0xAA ∨ c.toNat = 0xB2 ∨ c.toNat = 0xB3 ∨ c.toNat = 0xB5 ∨
    c.toNat = 0xB9 ∨ c.toNat = 0xBA ∨ (0xBC ≤ c.toNat ∧ c.toNat ≤ 0xBE) ∨
    (0xC0 ≤ c.toNat ∧ c.toNat ≤ 0xFF ∧ c.toNat ≠ 0xD7 ∧ c.toNat ≠ 0xF7))

/-- The per-character keep-or-replace step of the sanitizer. -/
def sanitizeChar (c : Char) : Char :=
  if pyIsAlnum c || c = '_' || c = '-' then c else '_'

/-- Python `str.strip("_")` on a character list. -/
def stripUnderscores (l : List Char) : List Char :=
  (l.dropWhile (fun c => c == '_')).rdropWhile (fun c => c == '_')

/-- The sanitization block of `start_recording`: map characters, strip
underscores from both ends, default to `"episode"` when empty. -/
def sanitize_episode_name (episode_name : String) : String :=
  let safe_name := stripUnderscores (episode_name.data.map sanitizeChar)
  if safe_name = [] then "episode" else ⟨safe_name⟩

/-- The character set the spec names for sanitized episode names:
`[A-Za-z0-9_-]`. (Spec-side definition, for comparison with the code's
behaviour.) -/
def specNameChar (c : Char) : Bool :=
  decide ((65 ≤ c.toNat ∧ c.toNat ≤ 90) ∨ (97 ≤ c.toNat ∧ c.toNat ≤ 122) ∨
    (48 ≤ c.toNat ∧ c.toNat ≤ 57) ∨ c = '_' ∨ c = '-')

/-! ### Recording-session controller (`start_recording` / `stop_recording`)

The GUI closure state consists of `record_thread`, `record_stop_event`,
`current_recording_path` (all `Optional`), plus the helper threads spawned
for the finishing pipeline, which the controller never reads again
(`finishing_running` counts those still running). A thread handle is
modelled by its `is_alive()` value; an event by its `is_set()` value.
Side effects are returned as an action list. -/

/-- Externally visible actions of the controller. -/
inductive CtrlAct where
  /-- A `print(...)` log line. -/
  | logMsg : String → CtrlAct
  /-- `threading.Thread(target=record_worker, args=(wav_path, ...)).start()` -/
  | spawnRecorder : String → CtrlAct
  /-- `record_stop_event.set()` -/
  | setStopEvent : CtrlAct
  /-- `threading.Thread(target=_finish_recording_and_segment, args=(..., wav_path, ...)).start()` -/
  | spawnFinisher : String → CtrlAct
  deriving DecidableEq

/-- Controller state (the `nonlocal` variables of the GUI closures). -/
structure CtrlState where
  /-- `record_thread`: `none`, or `some alive`. -/
  record_thread : Option Bool
  /-- `record_stop_event`: `none`, or `some is_set`. -/
  record_stop_event : Option Bool
  /-- `current_recording_path`. -/
  current_recording_path : Option String
  /-- Finishing-pipeline helper threads still running (spawned by earlier
  `stop_recording` calls; the controller holds no reference to them). -/
  finishing_running : ℕ
  deriving DecidableEq

/-- `record_thread is not None and record_thread.is_alive()`. -/
def recordingActive (s : CtrlState) : Bool := s.record_thread == some true

/-- `start_recording()`: guard on an active recorder, ask for a name
(`dialog` is what `simpledialog.askstring` returns), sanitize, spawn the
recorder. -/
def start_recording (s : CtrlState) (dialog : Option String) :
    CtrlState × List CtrlAct :=
  if recordingActive s then (s, [CtrlAct.logMsg "[RECORD] Already recording."])
  else
    match dialog with
    | none => (s, [])
    | some episode_name =>
      if episode_name = "" then (s, [])
      else
        let safe_name := sanitize_episode_name episode_name
        let wav_path := "recordings/" ++ safe_name ++ ".wav"
        ({ s with
            record_thread := some true,
            record_stop_event := some false,
            current_recording_path := some wav_path },
         [CtrlAct.spawnRecorder wav_path])

/-- `stop_recording()`: guard on no active recorder; otherwise set the stop
event, spawn the finishing helper thread, and clear all three references
(the `assert`s on the two non-`None` references are modelled by the
fallthrough branch, which raises in Python and is unreachable from states
this program constructs). -/
def stop_recording (s : CtrlState) : CtrlState × List CtrlAct :=
  if s.record_thread = none ∨ s.record_thread = some false then
    (s, [CtrlAct.logMsg "[RECORD] No active recording."])
  else
    match s.record_stop_event, s.current_recording_path with
    | some _, some wav_path =>
      ({ record_thread := none,
         record_stop_event := none,
         current_recording_path := none,
         finishing_running := s.finishing_running + 1 },
       [CtrlAct.setStopEvent, CtrlAct.spawnFinisher wav_path])
    | _, _ => (s, [CtrlAct.logMsg "AssertionError"])

/-! ## Theorems -/

/-! ### Values of the derived constants -/

theorem segment_samples_eq : segment_samples = 192000 := by
  norm_num [segment_samples, SEGMENT_SEC, SAMPLE_RATE]
  decide

theorem step_samples_eq : step_samples = 96000 := by
  norm_num [step_samples, STEP_SEC, SAMPLE_RATE]
  decide

theorem chunk_bytes_eq : chunk_bytes = 64000 := by
  norm_num [chunk_bytes, CHUNK_SEC, SAMPLE_RATE]
  decide

/-! ### Byte-to-sample facts -/

theorem bytesToSamples_length (raw : List ℕ) :
    (bytesToSamples raw).length = raw.length / 2 := by
  induction raw using bytesToSamples.induct with
  | case1 lo hi rest ih => simp [bytesToSamples, ih]; omega
  | case2 l h =>
    cases l with
    | nil => simp [bytesToSamples]
    | cons a t =>
      cases t with
      | nil => simp [bytesToSamples]
      | cons b t2 => exact (h a b t2 rfl).elim

theorem bytesToSamples_replicate_zero (k : ℕ) :
    bytesToSamples (List.replicate (2 * k) 0) = List.replicate k 0 := by
  induction k with
  | zero => rfl
  | succ k ih =>
    have h2 : 2 * (k + 1) = (2 * k) + 1 + 1 := by ring
    rw [h2, List.replicate_succ, List.replicate_succ, bytesToSamples,
      List.replicate_succ]
    rw [ih]
    norm_num [i16OfBytes]

/-! ### Sample-level / length-level correspondence -/

theorem drainSegs_len (buf : List ℚ) (pos : ℕ) :
    (drainSegs buf pos).map Prod.fst = drainLenOffs buf.length pos := by
  induction buf, pos using drainSegs.induct with
  | case1 buf pos h ih =>
    have h' : 192000 ≤ buf.length := by rw [segment_samples_eq] at h; exact h
    rw [drainSegs, drainLenOffs, if_pos h, if_pos h']
    simp only [List.map_cons, List.length_drop, step_samples_eq] at ih ⊢
    rw [ih]
  | case2 buf pos h =>
    have h' : ¬ 192000 ≤ buf.length := by rw [segment_samples_eq] at h; exact h
    rw [drainSegs, drainLenOffs, if_neg h, if_neg h']
    rfl

theorem drainRest_len (buf : List ℚ) :
    (drainRest buf).length = drainLenRest buf.length := by
  induction buf using drainRest.induct with
  | case1 buf h ih =>
    have h' : 192000 ≤ buf.length := by rw [segment_samples_eq] at h; exact h
    rw [drainRest, drainLenRest, if_pos h, if_pos h']
    simp only [List.length_drop, step_samples_eq] at ih ⊢
    rw [ih]
  | case2 buf h =>
    have h' : ¬ 192000 ≤ buf.length := by rw [segment_samples_eq] at h; exact h
    rw [drainRest, drainLenRest, if_neg h, if_neg h']

theorem drainPos_len (buf : List ℚ) (pos : ℕ) :
    drainPos buf pos = drainLenPos buf.length pos := by
  induction buf, pos using drainPos.induct with
  | case1 buf pos h ih =>
    have h' : 192000 ≤ buf.length := by rw [segment_samples_eq] at h; exact h
    rw [drainPos, drainLenPos, if_pos h, if_pos h']
    simp only [List.length_drop, step_samples_eq] at ih ⊢
    rw [ih]
  | case2 buf pos h =>
    have h' : ¬ 192000 ≤ buf.length := by rw [segment_samples_eq] at h; exact h
    rw [drainPos, drainLenPos, if_neg h, if_neg h']

theorem drainTrace_len (buf : List ℚ) :
    drainTrace buf = traceLen buf.length := by
  induction buf using drainTrace.induct with
  | case1 buf h ih =>
    have h' : 192000 ≤ buf.length := by rw [segment_samples_eq] at h; exact h
    rw [drainTrace, traceLen, if_pos h, if_pos h']
    simp only [List.length_drop, step_samples_eq] at ih ⊢
    rw [ih]
  | case2 buf h =>
    have h' : ¬ 192000 ≤ buf.length := by rw [segment_samples_eq] at h; exact h
    rw [drainTrace, traceLen, if_neg h, if_neg h']

theorem audioWorkerSegs_len (chunks : List (List ℕ)) :
    ∀ (buf : List ℚ) (pos : ℕ),
      (audioWorkerSegs chunks buf pos).map Prod.fst =
        runLen (chunks.map List.length) buf.length pos := by
  induction chunks with
  | nil => intro buf pos; rfl
  | cons raw rest ih =>
    intro buf pos
    by_cases hc : raw = []
    · simp [audioWorkerSegs, runLen, hc]
    · have hc' : raw.length ≠ 0 := by simpa using hc
      simp only [audioWorkerSegs, runLen, List.map_cons, if_neg hc, if_neg hc']
      have hlen : (buf ++ bytesToSamples raw).length =
          buf.length + raw.length / 2 := by
        simp [bytesToSamples_length]
      simp only [List.map_append, ih, drainSegs_len, drainRest_len,
        drainPos_len, hlen]

theorem audioWorkerTrace_len (chunks : List (List ℕ)) :
    ∀ buf : List ℚ,
      audioWorkerTrace chunks buf = runTraceLen (chunks.map List.length) buf.length := by
  induction chunks with
  | nil => intro buf; rfl
  | cons raw rest ih =>
    intro buf
    by_cases hc : raw = []
    · simp [audioWorkerTrace, runTraceLen, hc]
    · have hc' : raw.length ≠ 0 := by simpa using hc
      simp only [audioWorkerTrace, runTraceLen, List.map_cons, if_neg hc,
        if_neg hc']
      have hlen : (buf ++ bytesToSamples raw).length =
          buf.length + raw.length / 2 := by
        simp [bytesToSamples_length]
      simp only [ih, drainTrace_len, drainRest_len, hlen]

/-! ### Fuel-twin equivalences -/

theorem drainLenOffsF_eq (fuel : ℕ) :
    ∀ n pos, n ≤ fuel → drainLenOffsF fuel n pos = drainLenOffs n pos := by
  induction fuel with
  | zero =>
    intro n pos hn
    rw [drainLenOffs, if_neg (by omega)]
    rfl
  | succ fuel ih =>
    intro n pos hn
    by_cases h : 192000 ≤ n
    · rw [drainLenOffs, if_pos h]
      show (if 192000 ≤ n then pos :: drainLenOffsF fuel (n - 96000) (pos + 96000)
        else []) = _
      rw [if_pos h, ih (n - 96000) (pos + 96000) (by omega)]
    · rw [drainLenOffs, if_neg h]
      show (if 192000 ≤ n then _ else []) = _
      rw [if_neg h]

theorem drainLenRestF_eq (fuel : ℕ) :
    ∀ n, n ≤ fuel → drainLenRestF fuel n = drainLenRest n := by
  induction fuel with
  | zero =>
    intro n hn
    rw [drainLenRest, if_neg (by omega)]
    rfl
  | succ fuel ih =>
    intro n hn
    by_cases h : 192000 ≤ n
    · rw [drainLenRest, if_pos h]
      show (if 192000 ≤ n then drainLenRestF fuel (n - 96000) else n) = _
      rw [if_pos h, ih (n - 96000) (by omega)]
    · rw [drainLenRest, if_neg h]
      show (if 192000 ≤ n then _ else n) = _
      rw [if_neg h]

theorem drainLenPosF_eq (fuel : ℕ) :
    ∀ n pos, n ≤ fuel → drainLenPosF fuel n pos = drainLenPos n pos := by
  induction fuel with
  | zero =>
    intro n pos hn
    rw [drainLenPos, if_neg (by omega)]
    rfl
  | succ fuel ih =>
    intro n pos hn
    by_cases h : 192000 ≤ n
    · rw [drainLenPos, if_pos h]
      show (if 192000 ≤ n then drainLenPosF fuel (n - 96000) (pos + 96000)
        else pos) = _
      rw [if_pos h, ih (n - 96000) (pos + 96000) (by omega)]
    · rw [drainLenPos, if_neg h]
      show (if 192000 ≤ n then _ else pos) = _
      rw [if_neg h]

theorem traceLenF_eq (fuel : ℕ) :
    ∀ n, n ≤ fuel → traceLenF fuel n = traceLen n := by
  induction fuel with
  | zero =>
    intro n hn
    rw [traceLen, if_neg (by omega)]
    rfl
  | succ fuel ih =>
    intro n hn
    by_cases h : 192000 ≤ n
    · rw [traceLen, if_pos h]
      show (if 192000 ≤ n then (n - 96000) :: traceLenF fuel (n - 96000)
        else []) = _
      rw [if_pos h, ih (n - 96000) (by omega)]
    · rw [traceLen, if_neg h]
      show (if 192000 ≤ n then _ else []) = _
      rw [if_neg h]

theorem runLenF_eq (cs : List ℕ) :
    ∀ n pos, runLenF cs n pos = runLen cs n pos := by
  induction cs with
  | nil => intro n pos; rfl
  | cons c rest ih =>
    intro n pos
    by_cases hc : c = 0
    · simp [runLenF, runLen, hc]
    · rw [runLen, if_neg hc]
      show (if c = 0 then [] else _) = _
      rw [if_neg hc, drainLenOffsF_eq _ _ _ (by omega),
        drainLenRestF_eq _ _ (by omega), drainLenPosF_eq _ _ _ (by omega), ih]

theorem runTraceLenF_eq (cs : List ℕ) :
    ∀ n, runTraceLenF cs n = runTraceLen cs n := by
  induction cs with
  | nil => intro n; rfl
  | cons c rest ih =>
    intro n
    by_cases hc : c = 0
    · simp [runTraceLenF, runTraceLen, hc]
    · rw [runTraceLen, if_neg hc]
      show (if c = 0 then [] else _) = _
      rw [if_neg hc, traceLenF_eq _ _ (by omega),
        drainLenRestF_eq _ _ (by omega), ih]

/-! ### Generic facts about the segmenter -/

theorem drainSegs_seg_length (buf : List ℚ) (pos : ℕ) :
    ∀ p ∈ drainSegs buf pos, p.2.length = segment_samples := by
  induction buf, pos using drainSegs.induct with
  | case1 buf pos h ih =>
    rw [drainSegs, if_pos h]
    intro p hp
    rcases List.mem_cons.mp hp with hp | hp
    · subst hp
      simp only [List.length_take]
      omega
    · exact ih p hp
  | case2 buf pos h =>
    rw [drainSegs, if_neg h]
    intro p hp
    exact absurd hp (List.not_mem_nil p)

theorem audioWorkerSegs_seg_length (chunks : List (List ℕ)) :
    ∀ (buf : List ℚ) (pos : ℕ) (p : ℕ × List ℚ),
      p ∈ audioWorkerSegs chunks buf pos → p.2.length = segment_samples := by
  induction chunks with
  | nil => intro buf pos p hp; exact absurd hp (List.not_mem_nil p)
  | cons raw rest ih =>
    intro buf pos p hp
    by_cases hc : raw = []
    · rw [audioWorkerSegs, if_pos hc] at hp
      exact absurd hp (List.not_mem_nil p)
    · rw [audioWorkerSegs, if_neg hc] at hp
      rcases List.mem_append.mp hp with hp | hp
      · exact drainSegs_seg_length _ _ p hp
      · exact ih _ _ p hp

theorem drainSegs_eq_nil_of_small (buf : List ℚ) (pos : ℕ) :
    buf.length < segment_samples → drainSegs buf pos = [] := by
  intro h
  have h' : ¬ segment_samples ≤ buf.length := by omega
  rw [drainSegs, if_neg h']

theorem drainLenOffs_spec (n pos : ℕ) :
    drainLenOffs n pos =
      (List.range (drainLenOffs n pos).length).map (fun i => pos + 96000 * i) ∧
    drainLenPos n pos = pos + 96000 * (drainLenOffs n pos).length ∧
    drainLenRest n < 192000 := by
  induction n, pos using drainLenOffs.induct with
  | case1 n pos h ih =>
    rw [drainLenOffs, drainLenPos, drainLenRest, if_pos h, if_pos h, if_pos h]
    obtain ⟨ih1, ih2, ih3⟩ := ih
    refine ⟨?_, ?_, ih3⟩
    · rw [List.length_cons, List.range_succ_eq_map, List.map_cons]
      refine congrArg₂ _ (by omega) ?_
      conv_lhs => rw [ih1]
      rw [List.map_map]
      exact List.map_congr_left (fun i _ => by simp only [Function.comp]; omega)
    · rw [List.length_cons, ih2]; omega
  | case2 n pos h =>
    rw [drainLenOffs, drainLenPos, drainLenRest, if_neg h, if_neg h, if_neg h]
    exact ⟨rfl, by simp, by omega⟩

theorem runLen_spec (cs : List ℕ) :
    ∀ n pos, n < 192000 →
      runLen cs n pos =
        (List.range (runLen cs n pos).length).map (fun i => pos + 96000 * i) := by
  induction cs with
  | nil => intro n pos _; rfl
  | cons c rest ih =>
    intro n pos hn
    by_cases hc : c = 0
    · simp [runLen, hc]
    · rw [runLen, if_neg hc]
      obtain ⟨h1, h2, h3⟩ := drainLenOffs_spec (n + c / 2) pos
      have hr := ih (drainLenRest (n + c / 2)) (drainLenPos (n + c / 2) pos) h3
      rw [List.length_append, List.range_add, List.map_append, List.map_map]
      refine congrArg₂ _ ?_ ?_
      · exact h1
      · conv_lhs => rw [hr]
        exact List.map_congr_left (fun i _ => by
          simp only [Function.comp]
          rw [h2]
          ring)

theorem traceLen_ge (n : ℕ) : ∀ l ∈ traceLen n, 96000 ≤ l := by
  induction n using traceLen.induct with
  | case1 n h ih =>
    rw [traceLen, if_pos h]
    intro l hl
    rcases List.mem_cons.mp hl with hl | hl
    · omega
    · exact ih l hl
  | case2 n h =>
    rw [traceLen, if_neg h]
    intro l hl
    exact absurd hl (List.not_mem_nil l)

theorem runTraceLen_ge (cs : List ℕ) :
    ∀ n, ∀ l ∈ runTraceLen cs n, 96000 ≤ l := by
  induction cs with
  | nil => intro n l hl; exact absurd hl (List.not_mem_nil l)
  | cons c rest ih =>
    intro n l hl
    by_cases hc : c = 0
    · rw [runTraceLen, if_pos hc] at hl
      exact absurd hl (List.not_mem_nil l)
    · rw [runTraceLen, if_neg hc] at hl
      rcases List.mem_append.mp hl with hl | hl
      · exact traceLen_ge _ l hl
      · exact ih _ l hl

/-! ### The full-2-second-chunk regime

When every `read` returns a complete 64000-byte chunk, the buffer size at
chunk boundaries is a multiple of 32000 samples below 192000, the while-loop
fires at most once per chunk, at exactly one segment of buffer, and every
post-emission size is exactly 96000. -/

theorem traceLen_full_chunk (n : ℕ) (h0 : n % 32000 = 0) (h1 : n < 192000) :
    (∀ l ∈ traceLen (n + 32000), l = 96000) ∧
    drainLenRest (n + 32000) % 32000 = 0 ∧ drainLenRest (n + 32000) < 192000 := by
  have hcase : n = 0 ∨ n = 32000 ∨ n = 64000 ∨ n = 96000 ∨ n = 128000 ∨
      n = 160000 := by omega
  rcases hcase with h | h | h | h | h | h <;> subst h <;>
    first
      | (constructor
         · intro l hl
           rw [traceLen, if_neg (by omega)] at hl
           exact absurd hl (List.not_mem_nil l)
         · rw [drainLenRest, if_neg (by omega)]
           omega)
      | (refine ⟨?_, ?_, ?_⟩
         · intro l hl
           rw [traceLen, if_pos (by omega), traceLen, if_neg (by omega)] at hl
           rcases List.mem_cons.mp hl with hl | hl
           · omega
           · exact absurd hl (List.not_mem_nil l)
         · rw [drainLenRest, if_pos (by omega), drainLenRest, if_neg (by omega)]
         · rw [drainLenRest, if_pos (by omega), drainLenRest, if_neg (by omega)]
           omega)

theorem runTraceLen_full_chunk (cs : List ℕ) :
    ∀ n, (∀ c ∈ cs, c = 64000) → n % 32000 = 0 → n < 192000 →
      ∀ l ∈ runTraceLen cs n, l = 96000 := by
  induction cs with
  | nil => intro n _ _ _ l hl; exact absurd hl (List.not_mem_nil l)
  | cons c rest ih =>
    intro n hall h0 h1 l hl
    have hc : c = 64000 := hall c (List.mem_cons_self c rest)
    subst hc
    rw [runTraceLen, if_neg (by omega)] at hl
    rw [show (64000:ℕ) / 2 = 32000 from rfl] at hl
    obtain ⟨ht, hr0, hr1⟩ := traceLen_full_chunk n h0 h1
    rcases List.mem_append.mp hl with hl | hl
    · exact ht l hl
    · exact ih _ (fun d hd => hall d (List.mem_cons_of_mem _ hd)) hr0 hr1 l hl

/-! ## Claim theorems -/

/-- C1: for a capture stream delivering exactly 30 seconds of audio in
2-second chunks (15 chunks of `chunk_bytes` = 64000 bytes) followed by
end-of-stream, the live segmentation loop calls `run_whisper_cpp` exactly 4
times, on the segments starting at stream offsets 0 s, 6 s, 12 s and 18 s
(0, 96000, 192000 and 288000 samples at 16 kHz), and then terminates (the
model is the loop's complete output); no segment starting at 24 s (384000
samples) is emitted. -/
theorem audio_worker_thirty_second_stream :
    ((audio_worker_segments
        (List.replicate 15 (List.replicate chunk_bytes 0))).map Prod.fst =
      [0, 96000, 192000, 288000]) ∧
    (audio_worker_segments
        (List.replicate 15 (List.replicate chunk_bytes 0))).length = 4 ∧
    384000 ∉ (audio_worker_segments
        (List.replicate 15 (List.replicate chunk_bytes 0))).map Prod.fst := by
  have hmap : (List.replicate 15 (List.replicate chunk_bytes (0:ℕ))).map
      List.length = List.replicate 15 (64000:ℕ) := by
    rw [List.map_replicate, List.length_replicate, chunk_bytes_eq]
  have h := audioWorkerSegs_len (List.replicate 15 (List.replicate chunk_bytes 0)) [] 0
  rw [hmap] at h
  simp only [List.length_nil] at h
  have heval : runLen (List.replicate 15 (64000:ℕ)) 0 0 =
      [0, 96000, 192000, 288000] := by
    rw [← runLenF_eq]
    decide
  have hoffs : (audio_worker_segments
      (List.replicate 15 (List.replicate chunk_bytes 0))).map Prod.fst =
      [0, 96000, 192000, 288000] := by
    rw [audio_worker_segments, h, heval]
  refine ⟨hoffs, ?_, ?_⟩
  · have := congrArg List.length hoffs
    simpa using this
  · rw [hoffs]
    decide

/-- C2: for every sequence of ingested chunk byte strings, (a) every segment
the loop emits has exactly `segment_samples` samples, never fewer; (b) the
start offsets of the emitted segments into the overall stream form the
arithmetic progression `0, hop, 2·hop, …` — consecutive emitted segments'
offsets differ by exactly `step_samples`; (c) the while-loop emits nothing
from a buffer holding less than one full segment length. -/
theorem audio_worker_window_invariants (chunks : List (List ℕ)) :
    (∀ p ∈ audio_worker_segments chunks, p.2.length = segment_samples) ∧
    ((audio_worker_segments chunks).map Prod.fst =
      (List.range (audio_worker_segments chunks).length).map
        (fun i => step_samples * i)) ∧
    (∀ (buf : List ℚ) (pos : ℕ), buf.length < segment_samples →
      drainSegs buf pos = []) := by
  refine ⟨?_, ?_, ?_⟩
  · intro p hp
    exact audioWorkerSegs_seg_length chunks [] 0 p hp
  · have h := audioWorkerSegs_len chunks [] 0
    simp only [List.length_nil] at h
    have h2 := runLen_spec (chunks.map List.length) 0 0 (by omega)
    have hlen : (audioWorkerSegs chunks [] 0).length =
        (runLen (chunks.map List.length) 0 0).length := by
      have hc := congrArg List.length h
      simpa using hc
    show (audioWorkerSegs chunks [] 0).map Prod.fst =
      (List.range (audioWorkerSegs chunks [] 0).length).map
        (fun i => step_samples * i)
    rw [h, hlen]
    conv_lhs => rw [h2]
    exact List.map_congr_left (fun i _ => by rw [step_samples_eq]; omega)
  · intro buf pos hb
    exact drainSegs_eq_nil_of_small buf pos hb

/-- Witness for C2 at concrete inputs: one 448000-byte chunk (224000
samples) produces a first segment of exactly `segment_samples` samples, and
an empty buffer emits nothing. -/
theorem audio_worker_window_invariants_witness :
    ((List.replicate 224000 (0:ℚ)).take segment_samples).length =
      segment_samples ∧
    drainSegs [] 0 = [] := by
  have hbts : bytesToSamples (List.replicate 448000 (0:ℕ)) =
      List.replicate 224000 (0:ℚ) := by
    have h := bytesToSamples_replicate_zero 224000
    norm_num at h
    exact h
  constructor
  · refine (audio_worker_window_invariants [List.replicate 448000 0]).1
      (0, (List.replicate 224000 (0:ℚ)).take segment_samples) ?_
    have hcons : audio_worker_segments [List.replicate 448000 0] =
        (0, (List.replicate 224000 (0:ℚ)).take segment_samples) ::
          drainSegs ((List.replicate 224000 (0:ℚ)).drop step_samples)
            (0 + step_samples) := by
      rw [audio_worker_segments]
      simp only [audioWorkerSegs]
      rw [if_neg (by simp only [ne_eq, List.replicate_eq_nil_iff]; omega), hbts,
        List.nil_append, List.append_nil]
      rw [drainSegs,
        if_pos (by rw [segment_samples_eq, List.length_replicate]; omega)]
    rw [hcons]
    exact List.mem_cons_self _ _
  · exact (audio_worker_window_invariants []).2.2 [] 0
      (by rw [segment_samples_eq]; simp only [List.length_nil]; omega)

/-- C3 counterexample: seven reads of 60000 bytes each (30000 samples; short
reads below the requested 64000 bytes) leave 210000 samples in the buffer at
the seventh chunk; the single emission then retains 210000 − 96000 = 114000
samples, not `segment_samples - step_samples` = 96000. -/
theorem audio_worker_trace_cex :
    audio_worker_trace (List.replicate 7 (List.replicate 60000 0)) =
      [114000] ∧
    (114000 : ℕ) ≠ segment_samples - step_samples := by
  constructor
  · have h := audioWorkerTrace_len (List.replicate 7 (List.replicate 60000 0)) []
    simp only [List.length_nil] at h
    have hmap : (List.replicate 7 (List.replicate 60000 (0:ℕ))).map
        List.length = List.replicate 7 (60000:ℕ) := by
      rw [List.map_replicate, List.length_replicate]
    rw [audio_worker_trace, h, hmap, ← runTraceLenF_eq]
    decide
  · rw [segment_samples_eq, step_samples_eq]
    omega

/-- C3 (amended): immediately after each window emission the buffer holds
exactly the pre-emission size minus the hop — hence at least
`segment_samples - step_samples` samples, with equality not guaranteed in
general; when every read delivers a full 2-second chunk (`chunk_bytes`
bytes), the pre-emission buffer always holds exactly one segment and every
post-emission size is exactly `segment_samples - step_samples`. -/
theorem audio_worker_post_emission_buffer (chunks : List (List ℕ)) :
    (∀ l ∈ audio_worker_trace chunks, segment_samples - step_samples ≤ l) ∧
    ((∀ raw ∈ chunks, raw.length = chunk_bytes) →
      ∀ l ∈ audio_worker_trace chunks, l = segment_samples - step_samples) := by
  have h := audioWorkerTrace_len chunks []
  simp only [List.length_nil] at h
  constructor
  · intro l hl
    rw [audio_worker_trace, h] at hl
    have := runTraceLen_ge (chunks.map List.length) 0 l hl
    rw [segment_samples_eq, step_samples_eq]
    omega
  · intro hfull l hl
    rw [audio_worker_trace, h] at hl
    rw [segment_samples_eq, step_samples_eq]
    refine runTraceLen_full_chunk (chunks.map List.length) 0 ?_ (by norm_num)
      (by norm_num) l hl
    intro c hc
    obtain ⟨raw, hraw, rfl⟩ := List.mem_map.mp hc
    rw [hfull raw hraw, chunk_bytes_eq]

/-- Witness for the amended C3: six full 2-second chunks produce exactly one
emission, whose post-emission buffer size 96000 satisfies both conjuncts. -/
theorem audio_worker_post_emission_buffer_witness :
    segment_samples - step_samples ≤ 96000 ∧
    (96000 : ℕ) = segment_samples - step_samples := by
  have heval : audio_worker_trace
      (List.replicate 6 (List.replicate 64000 0)) = [96000] := by
    have h := audioWorkerTrace_len (List.replicate 6 (List.replicate 64000 0)) []
    simp only [List.length_nil] at h
    have hmap : (List.replicate 6 (List.replicate 64000 (0:ℕ))).map
        List.length = List.replicate 6 (64000:ℕ) := by
      rw [List.map_replicate, List.length_replicate]
    rw [audio_worker_trace, h, hmap, ← runTraceLenF_eq]
    decide
  have hmem : 96000 ∈ audio_worker_trace
      (List.replicate 6 (List.replicate 64000 0)) := by
    rw [heval]
    exact List.mem_cons_self _ _
  constructor
  · exact (audio_worker_post_emission_buffer
      (List.replicate 6 (List.replicate 64000 0))).1 96000 hmem
  · exact (audio_worker_post_emission_buffer
      (List.replicate 6 (List.replicate 64000 0))).2
      (by
        intro raw hraw
        rw [List.eq_of_mem_replicate hraw, List.length_replicate,
          chunk_bytes_eq])
      96000 hmem

/-! ### Text-cleanup lemmas -/

theorem removeAllCharsF_eq (fuel : ℕ) :
    ∀ (pat s : List Char), s.length ≤ fuel →
      removeAllCharsF fuel pat s = removeAllChars pat s := by
  induction fuel with
  | zero =>
    intro pat s hs
    have : s = [] := by
      cases s with
      | nil => rfl
      | cons c rest => simp at hs
    subst this
    rw [removeAllChars]
    rfl
  | succ fuel ih =>
    intro pat s hs
    cases s with
    | nil => rw [removeAllChars]; rfl
    | cons c rest =>
      rw [removeAllChars]
      show (match c :: rest with
        | [] => []
        | c :: rest =>
          if pat ≠ [] ∧ pat.isPrefixOf (c :: rest) then
            removeAllCharsF fuel pat ((c :: rest).drop pat.length)
          else
            c :: removeAllCharsF fuel pat rest) = _
      by_cases h : pat ≠ [] ∧ pat.isPrefixOf (c :: rest)
      · rw [dif_pos h]
        simp only [if_pos h]
        have hone : 1 ≤ pat.length := by
          cases hp : pat with
          | nil => exact absurd hp h.1
          | cons a l => simp
        exact ih pat _ (by simp only [List.length_drop, List.length_cons] at *; omega)
      · rw [dif_neg h]
        simp only [if_neg h]
        rw [ih pat rest (by simp only [List.length_cons] at hs; omega)]

theorem pyRemoveF_eq (s g : String) : pyRemoveF s g = pyRemove s g := by
  rw [pyRemoveF, pyRemove, removeAllCharsF_eq s.data.length g.data s.data le_rfl]

theorem cleanTextF_eq (t : String) : cleanTextF t = cleanText t := by
  have hfun : pyRemoveF = pyRemove := funext fun s => funext fun g => pyRemoveF_eq s g
  rw [cleanTextF, cleanText, hfun]

theorem removeAllChars_of_no_match (pat : List Char) :
    ∀ s : List Char, ¬ (pat <:+: s) → removeAllChars pat s = s := by
  intro s
  induction s with
  | nil => intro _; rw [removeAllChars]
  | cons c rest ih =>
    intro h
    have hnp : ¬ (pat ≠ [] ∧ pat.isPrefixOf (c :: rest)) := by
      rintro ⟨_, hpre⟩
      exact h (List.isPrefixOf_iff_prefix.mp hpre).isInfix
    rw [removeAllChars, dif_neg hnp]
    rw [ih (fun hi => h (List.infix_cons hi))]

theorem pyRemove_of_no_match (s g : String) (h : ¬ (g.data <:+: s.data)) :
    pyRemove s g = s := by
  rw [pyRemove, removeAllChars_of_no_match g.data s.data h]

theorem foldl_pyRemove_id (gs : List String) :
    ∀ t : String, (∀ g ∈ gs, ¬ (g.data <:+: t.data)) →
      gs.foldl pyRemove t = t := by
  induction gs with
  | nil => intro t _; rfl
  | cons g rest ih =>
    intro t h
    rw [List.foldl_cons, pyRemove_of_no_match t g (h g (List.mem_cons_self g rest))]
    exact ih t (fun g' hg' => h g' (List.mem_cons_of_mem g hg'))

theorem dropWhile_prefix_of_eq_self {p : Char → Bool} {X Y : List Char}
    (hX : X.dropWhile p = X) (hY : Y <+: X) : Y.dropWhile p = Y := by
  cases Y with
  | nil => rfl
  | cons y t =>
    obtain ⟨w, hw⟩ := hY
    subst hw
    have h0 := List.dropWhile_eq_self_iff.mp hX
    have hy : ¬ p y = true := by
      have hz := h0 (by simp)
      simpa using hz
    rw [List.dropWhile_cons, if_neg hy]

theorem stripChars_idem (l : List Char) :
    stripChars (stripChars l) = stripChars l := by
  rw [stripChars, stripChars]
  have h1 : (l.dropWhile isPySpace).dropWhile isPySpace =
      l.dropWhile isPySpace := List.dropWhile_idempotent _ _
  have h2 : ((l.dropWhile isPySpace).rdropWhile isPySpace).dropWhile isPySpace =
      (l.dropWhile isPySpace).rdropWhile isPySpace :=
    dropWhile_prefix_of_eq_self h1 ( List.rdropWhile_prefix _ _)
  rw [h2, List.rdropWhile_idempotent]

theorem pyStrip_idem (s : String) : pyStrip (pyStrip s) = pyStrip s := by
  show (⟨stripChars (stripChars s.data)⟩ : String) = ⟨stripChars s.data⟩
  rw [stripChars_idem]

theorem cleanText_of_no_garbage (t : String)
    (h : ∀ g ∈ garbage_phrases, ¬ (g.data <:+: t.data)) :
    cleanText t = pyStrip t := by
  by_cases ht : t = ""
  · subst ht
    rfl
  · rw [cleanText, if_pos ht, foldl_pyRemove_id garbage_phrases t h]

/-- C4: the dedup filter, started from `last_line = ""`: accepting a
non-empty text twice in a row yields `(true, false)`; accepting `""` never
forwards and leaves the state unchanged, in every state; and accepting
`x, y, x` with `x ≠ y`, both non-empty, yields `(true, true, true)`. -/
theorem dedup_filter_behaviour :
    (∀ x : String, x ≠ "" →
      (dedupAccept "" x).1 = true ∧
      (dedupAccept (dedupAccept "" x).2 x).1 = false) ∧
    (∀ last : String, dedupAccept last "" = (false, last)) ∧
    (∀ x y : String, x ≠ "" → y ≠ "" → x ≠ y →
      (dedupAccept "" x).1 = true ∧
      (dedupAccept (dedupAccept "" x).2 y).1 = true ∧
      (dedupAccept (dedupAccept (dedupAccept "" x).2 y).2 x).1 = true) := by
  refine ⟨?_, ?_, ?_⟩
  · intro x hx
    have h1 : dedupAccept "" x = (true, x) := by
      rw [dedupAccept, if_pos ⟨hx, hx⟩]
    have h2 : dedupAccept x x = (false, x) := by
      rw [dedupAccept, if_neg (fun hc => hc.2 rfl)]
    rw [h1]
    exact ⟨rfl, by rw [h2]⟩
  · intro last
    rw [dedupAccept, if_neg (fun hc => hc.1 rfl)]
  · intro x y hx hy hxy
    have h1 : dedupAccept "" x = (true, x) := by
      rw [dedupAccept, if_pos ⟨hx, hx⟩]
    have h2 : dedupAccept x y = (true, y) := by
      rw [dedupAccept, if_pos ⟨hy, hxy.symm⟩]
    have h3 : dedupAccept y x = (true, x) := by
      rw [dedupAccept, if_pos ⟨hx, hxy⟩]
    rw [h1]
    refine ⟨rfl, ?_, ?_⟩
    · rw [h2]
    · rw [h2, h3]

/-- Witness for C4 at `x = "a"`, `y = "b"`, state `"x"`. -/
theorem dedup_filter_behaviour_witness :
    ((dedupAccept "" "a").1 = true ∧
      (dedupAccept (dedupAccept "" "a").2 "a").1 = false) ∧
    dedupAccept "x" "" = (false, "x") ∧
    ((dedupAccept "" "a").1 = true ∧
      (dedupAccept (dedupAccept "" "a").2 "b").1 = true ∧
      (dedupAccept (dedupAccept (dedupAccept "" "a").2 "b").2 "a").1 = true) :=
  ⟨dedup_filter_behaviour.1 "a" (by decide),
   dedup_filter_behaviour.2.1 "x",
   dedup_filter_behaviour.2.2 "a" "b" (by decide) (by decide) (by decide)⟩

/-! ### C5: the duration estimator -/

theorem foldl_end_time_max (lines : List String) :
    ∀ a : ℚ,
      lines.foldl
        (fun last_end line =>
          match matchEndTime (stripChars line.data) with
          | none => last_end
          | some t => if t > last_end then t else last_end)
        a =
      (lines.filterMap (fun line => matchEndTime (stripChars line.data))).foldl
        max a := by
  induction lines with
  | nil => intro a; rfl
  | cons line rest ih =>
    intro a
    rw [List.foldl_cons, List.filterMap_cons]
    cases hm : matchEndTime (stripChars line.data) with
    | none => exact ih a
    | some t =>
      rw [List.foldl_cons, ih]
      congr 1
      show (if t > a then t else a) = max a t
      rcases lt_or_ge a t with h | h
      · rw [if_pos h, max_eq_right h.le]
      · rw [if_neg (not_lt.mpr h), max_eq_left h]

/-- C5 counterexample: a subtitle file in which no timestamp parses (here:
no lines at all) yields 61.0 — the 60.0 default plus the unconditional 1.0
padding — not 60.0 as the spec states. -/
theorem parse_srt_duration_cex :
    _parse_srt_duration [] = 61 ∧ _parse_srt_duration [] ≠ 60 := by
  constructor
  · rw [_parse_srt_duration]
    norm_num
  · rw [_parse_srt_duration]
    norm_num

/-- C5 (amended): the duration estimator returns the maximum end timestamp
over all matching lines plus 1.0 whenever that maximum is positive; when no
line matches — or every matching end time is 0 — it returns 61.0 (the 60.0
default plus 1.0 padding), not 60.0. A file whose latest end time is
`00:01:23,500` yields 84.5. -/
theorem parse_srt_duration_spec (lines : List String) :
    (0 < srtMaxEnd lines →
      _parse_srt_duration lines = srtMaxEnd lines + 1) ∧
    (srtMaxEnd lines = 0 → _parse_srt_duration lines = 61) ∧
    _parse_srt_duration ["00:01:20,000 --> 00:01:23,500"] = 84.5 := by
  have hfold := foldl_end_time_max lines 0
  refine ⟨?_, ?_, ?_⟩
  · intro hpos
    rw [_parse_srt_duration]
    simp only [hfold]
    rw [srtMaxEnd] at hpos ⊢
    rw [if_neg (by linarith)]
  · intro hzero
    rw [_parse_srt_duration]
    simp only [hfold]
    rw [srtMaxEnd] at hzero
    rw [hzero, if_pos le_rfl]
    norm_num
  · with_unfolding_all rfl

/-- Witness for the amended C5: the single-line file realizes the positive
case (its maximum end time is 83.5) and the empty file realizes the
no-timestamp case. -/
theorem parse_srt_duration_spec_witness :
    _parse_srt_duration ["00:01:20,000 --> 00:01:23,500"] =
      srtMaxEnd ["00:01:20,000 --> 00:01:23,500"] + 1 ∧
    _parse_srt_duration [] = 61 :=
  ⟨(parse_srt_duration_spec ["00:01:20,000 --> 00:01:23,500"]).1 (by
      have h : srtMaxEnd ["00:01:20,000 --> 00:01:23,500"] = mkRat 167 2 := by
        with_unfolding_all rfl
      rw [h]
      decide),
   (parse_srt_duration_spec []).2.1 (by with_unfolding_all rfl)⟩

/-! ### C6: engine-failure containment -/

/-- C6 counterexample: when the engine exits nonzero but still leaves a text
file (here containing "hello"), `run_whisper_cpp` returns that file's
cleaned contents, not the empty string — the source reads the output file
without consulting the exit status. -/
theorem run_whisper_cpp_nonzero_exit_cex :
    run_whisper_cpp [] "english" none ⟨1, some "hello"⟩ = "hello" ∧
    ("hello" : String) ≠ "" ∧ (1 : ℤ) ≠ 0 := by
  refine ⟨?_, by decide, by decide⟩
  have h0 : run_whisper_cpp [] "english" none ⟨1, some "hello"⟩ =
      cleanText (pyStrip "hello") := rfl
  have h1 : pyStrip "hello" = "hello" := rfl
  rw [h0, h1, cleanText_of_no_garbage "hello" (by decide)]
  exact h1

/-- C6 (amended): file mode (`segment_episode`) returns null whenever the
engine exits nonzero (also when the binary or model is missing); segment
mode (`run_whisper_cpp`) returns the empty string whenever the engine
produced no output text file — which is how a failed run normally presents —
for any exit status; when the engine exits nonzero but an output text file
exists, its cleaned contents are returned instead. Both boundary functions
are total, so no exception crosses either boundary. -/
theorem engine_failure_containment :
    (∀ (b m : Bool) (outPref : String) (eng : FileEngineRun),
      eng.returncode ≠ 0 → segment_episode b m outPref eng = none) ∧
    (∀ (segment : List ℚ) (output_mode : String) (lang_code : Option String)
        (rc : ℤ),
      run_whisper_cpp segment output_mode lang_code ⟨rc, none⟩ = "") := by
  constructor
  · intro b m outPref eng h
    rw [segment_episode]
    by_cases hb : b = true
    · by_cases hm : m = true
      · rw [if_neg (by simp [hb]), if_neg (by simp [hm]), if_pos h]
      · rw [if_neg (by simp [hb]), if_pos (by simpa using hm)]
    · rw [if_pos (by simpa using hb)]
  · intro segment output_mode lang_code rc
    rfl

/-- Witness for C6 at a concrete failing run (`returncode = 1`). -/
theorem engine_failure_containment_witness :
    segment_episode true true "subtitles/doraemon_877_en" ⟨1, true, []⟩ =
      none ∧
    run_whisper_cpp [] "english" none ⟨1, none⟩ = "" :=
  ⟨engine_failure_containment.1 true true "subtitles/doraemon_877_en"
      ⟨1, true, []⟩ (by decide),
   engine_failure_containment.2 [] "english" none 1⟩

/-! ### C7: denylist cleanup -/

/-- C7 counterexample: removing `*music*` from
`"Thanks for watch*music*ing!"` assembles a new occurrence of the denylist
phrase `"Thanks for watching!"`, whose own (earlier) removal pass has
already run — the returned text IS a denylist phrase, so not every denylist
phrase is removed from the returned text as a substring. -/
theorem denylist_leftover_cex :
    run_whisper_cpp [] "original" none
        ⟨0, some "Thanks for watch*music*ing!"⟩ =
      "Thanks for watching!" ∧
    "Thanks for watching!" ∈ garbage_phrases := by
  constructor
  · have h0 : run_whisper_cpp [] "original" none
        ⟨0, some "Thanks for watch*music*ing!"⟩ =
        cleanText (pyStrip "Thanks for watch*music*ing!") := rfl
    have h1 : pyStrip "Thanks for watch*music*ing!" =
        "Thanks for watch*music*ing!" := rfl
    rw [h0, h1, ← cleanTextF_eq]
    decide
  · decide

/-- C7 (amended): segment mode applies one left-to-right global substring
removal per denylist phrase, in a fixed order, and then trims: the returned
text is always whitespace-trimmed, and engine text containing no denylist
phrase is returned trimmed but otherwise unchanged; an occurrence assembled
by an earlier removal may survive (see the counterexample). Whole-file mode
(`segment_episode`) returns a subtitle file path and applies no text
post-processing at all. -/
theorem denylist_cleanup_spec :
    (∀ (seg : List ℚ) (om : String) (lc : Option String) (eng : EngineRun),
      pyStrip (run_whisper_cpp seg om lc eng) = run_whisper_cpp seg om lc eng) ∧
    (∀ (seg : List ℚ) (om : String) (lc : Option String) (rc : ℤ) (t : String),
      (∀ g ∈ garbage_phrases, ¬ (g.data <:+: (pyStrip t).data)) →
      run_whisper_cpp seg om lc ⟨rc, some t⟩ = pyStrip t) := by
  constructor
  · rintro seg om lc ⟨rc, tf⟩
    cases tf with
    | none => rfl
    | some t =>
      show pyStrip (cleanText (pyStrip t)) = cleanText (pyStrip t)
      by_cases hx : pyStrip t = ""
      · rw [hx]
        rfl
      · rw [cleanText, if_pos hx]
        exact pyStrip_idem _
  · intro seg om lc rc t h
    show cleanText (pyStrip t) = pyStrip t
    rw [cleanText_of_no_garbage (pyStrip t) h, pyStrip_idem]

/-- Witness for the amended C7 at `" hi "`. -/
theorem denylist_cleanup_spec_witness :
    pyStrip (run_whisper_cpp [] "english" none ⟨0, some " hi "⟩) =
      run_whisper_cpp [] "english" none ⟨0, some " hi "⟩ ∧
    run_whisper_cpp [] "english" none ⟨0, some " hi "⟩ = pyStrip " hi " :=
  ⟨denylist_cleanup_spec.1 [] "english" none ⟨0, some " hi "⟩,
   denylist_cleanup_spec.2 [] "english" none 0 " hi " (by decide)⟩

/-! ### C8: episode-name sanitization -/

/-- C8 counterexample: Python's `str.isalnum()` is Unicode-aware, so the
non-ASCII letter `é` passes the keep test and survives sanitization
unchanged — the sanitized name is NOT restricted to `[A-Za-z0-9_-]`. -/
theorem sanitize_episode_name_cex :
    sanitize_episode_name "é" = "é" ∧
    'é' ∈ (sanitize_episode_name "é").data ∧
    specNameChar 'é' = false := by
  refine ⟨by decide, by decide, by decide⟩

/-- C8 (amended): for ASCII input strings the sanitized name contains only
characters from `[A-Za-z0-9_-]` (non-ASCII alphanumeric input characters,
such as `é`, are preserved verbatim, so the ASCII restriction is necessary);
`"doraemon 877!"` sanitizes to `"doraemon_877"`; and any input consisting
only of disallowed characters falls back to the default name `"episode"`. -/
theorem sanitize_episode_name_spec :
    (∀ name : String, (∀ c ∈ name.data, c.toNat < 128) →
      ∀ c ∈ (sanitize_episode_name name).data, specNameChar c = true) ∧
    sanitize_episode_name "doraemon 877!" = "doraemon_877" ∧
    (∀ name : String,
      (∀ c ∈ name.data, (pyIsAlnum c || c = '_' || c = '-') = false) →
      sanitize_episode_name name = "episode") := by
  refine ⟨?_, by decide, ?_⟩
  · intro name hascii c hc
    rw [sanitize_episode_name] at hc
    by_cases hstrip : stripUnderscores (name.data.map sanitizeChar) = []
    · rw [if_pos hstrip] at hc
      have hep : ("episode" : String).data =
          ['e', 'p', 'i', 's', 'o', 'd', 'e'] := rfl
      rw [hep] at hc
      simp only [List.mem_cons, List.not_mem_nil, or_false] at hc
      rcases hc with rfl | rfl | rfl | rfl | rfl | rfl | rfl <;> decide
    · rw [if_neg hstrip] at hc
      have hc' : c ∈ name.data.map sanitizeChar := by
        have h1 : c ∈ (name.data.map sanitizeChar).dropWhile
            (fun x => x == '_') :=
          ( List.rdropWhile_prefix _ _).subset hc
        exact (List.dropWhile_suffix _).subset h1
      obtain ⟨c0, hc0, rfl⟩ := List.mem_map.mp hc'
      have hascii0 : c0.toNat < 128 := hascii c0 hc0
      rw [sanitizeChar]
      by_cases hk : (pyIsAlnum c0 || c0 = '_' || c0 = '-') = true
      · rw [if_pos hk]
        simp only [Bool.or_eq_true, decide_eq_true_eq] at hk
        rw [specNameChar, decide_eq_true_iff]
        rcases hk with (hpy | h_) | hd
        · rw [pyIsAlnum, decide_eq_true_iff] at hpy
          rcases hpy with h | h | h | h | h | h | h | h | h | h | h
          · exact Or.inr (Or.inr (Or.inl h))
          · exact Or.inl h
          · exact Or.inr (Or.inl h)
          all_goals exact ((by omega : False).elim)
        · exact Or.inr (Or.inr (Or.inr (Or.inl h_)))
        · exact Or.inr (Or.inr (Or.inr (Or.inr hd)))
      · rw [if_neg hk]
        decide
  · intro name hall
    rw [sanitize_episode_name]
    have hmap : ∀ x ∈ name.data.map sanitizeChar, (x == '_') = true := by
      intro x hx
      obtain ⟨c0, hc0, rfl⟩ := List.mem_map.mp hx
      rw [sanitizeChar, if_neg (by rw [hall c0 hc0]; exact Bool.false_ne_true)]
      decide
    have hstrip : stripUnderscores (name.data.map sanitizeChar) = [] := by
      rw [stripUnderscores, List.dropWhile_eq_nil_iff.mpr hmap,
        List.rdropWhile_nil]
    rw [if_pos hstrip]

/-- Witness for the amended C8 at `"a!"` (ASCII, sanitizes to `"a"`) and
`"!!"` (all disallowed, falls back to `"episode"`). -/
theorem sanitize_episode_name_spec_witness :
    specNameChar 'a' = true ∧ sanitize_episode_name "!!" = "episode" :=
  ⟨sanitize_episode_name_spec.1 "a!" (by decide) 'a' (by decide),
   sanitize_episode_name_spec.2.2 "!!" (by decide)⟩

/-! ### C9 and C10: the recording-session controller -/

/-- C9: in every controller state, `start` while a recording is active is a
logged no-op — the state is unchanged and nothing is spawned, so exactly the
one existing session remains — and `stop` while no recording is active is a
logged no-op spawning no finishing pipeline and changing no state. -/
theorem recording_session_noops (s : CtrlState) :
    (∀ dialog : Option String, recordingActive s = true →
      start_recording s dialog =
        (s, [CtrlAct.logMsg "[RECORD] Already recording."])) ∧
    (recordingActive s = false →
      stop_recording s =
        (s, [CtrlAct.logMsg "[RECORD] No active recording."])) := by
  constructor
  · intro dialog h
    rw [start_recording.eq_def, if_pos h]
  · intro h
    have hdisj : s.record_thread = none ∨ s.record_thread = some false := by
      cases hr : s.record_thread with
      | none => exact Or.inl rfl
      | some b =>
        cases b with
        | false => exact Or.inr rfl
        | true =>
          rw [recordingActive, hr] at h
          exact absurd h (by decide)
    rw [stop_recording, if_pos hdisj]

/-- Witness for C9: a state with a live recorder refuses a second `start`;
the idle state ignores `stop`. -/
theorem recording_session_noops_witness :
    start_recording ⟨some true, some false, some "recordings/ep.wav", 0⟩
        (some "ep2") =
      (⟨some true, some false, some "recordings/ep.wav", 0⟩,
       [CtrlAct.logMsg "[RECORD] Already recording."]) ∧
    stop_recording ⟨none, none, none, 0⟩ =
      (⟨none, none, none, 0⟩,
       [CtrlAct.logMsg "[RECORD] No active recording."]) :=
  ⟨(recording_session_noops
      ⟨some true, some false, some "recordings/ep.wav", 0⟩).1
      (some "ep2") (by decide),
   (recording_session_noops ⟨none, none, none, 0⟩).2 (by decide)⟩

/-- C10: `stop()` on an active recording clears all three controller
references (recorder thread, stop event, recording path) in the very call
that spawns the finishing pipeline; from the resulting state, `start(name)`
with any accepted (non-empty) name is taken and spawns a fresh recorder,
even though the finishing pipeline of the previous session is still running
(`finishing_running` was just incremented and `start` never consults it). -/
theorem stop_clears_refs_start_unblocked (s : CtrlState)
    (hactive : recordingActive s = true) (e : Bool) (p : String)
    (he : s.record_stop_event = some e)
    (hp : s.current_recording_path = some p) :
    (stop_recording s).1.record_thread = none ∧
    (stop_recording s).1.record_stop_event = none ∧
    (stop_recording s).1.current_recording_path = none ∧
    (stop_recording s).1.finishing_running = s.finishing_running + 1 ∧
    CtrlAct.spawnFinisher p ∈ (stop_recording s).2 ∧
    (∀ name : String, name ≠ "" →
      start_recording (stop_recording s).1 (some name) =
        ({ (stop_recording s).1 with
            record_thread := some true,
            record_stop_event := some false,
            current_recording_path :=
              some ("recordings/" ++ sanitize_episode_name name ++ ".wav") },
         [CtrlAct.spawnRecorder
            ("recordings/" ++ sanitize_episode_name name ++ ".wav")])) := by
  have hth : s.record_thread = some true := by
    rw [recordingActive] at hactive
    cases hr : s.record_thread with
    | none => rw [hr] at hactive; exact absurd hactive (by decide)
    | some b =>
      cases b with
      | false => rw [hr] at hactive; exact absurd hactive (by decide)
      | true => rfl
  have hs' : stop_recording s =
      (⟨none, none, none, s.finishing_running + 1⟩,
       [CtrlAct.setStopEvent, CtrlAct.spawnFinisher p]) := by
    rw [stop_recording,
      if_neg (by rw [hth]; rintro (h | h) <;> simp at h), he, hp]
  rw [hs']
  refine ⟨rfl, rfl, rfl, rfl, by simp, ?_⟩
  intro name hn
  show start_recording ⟨none, none, none, s.finishing_running + 1⟩
      (some name) = _
  have hna : ¬ (recordingActive
      ⟨none, none, none, s.finishing_running + 1⟩ = true) := by
    rw [recordingActive]
    show ¬ ((none : Option Bool) == some true) = true
    decide
  rw [start_recording.eq_def, if_neg hna]
  show (if name = "" then _ else _) = _
  rw [if_neg hn]

/-- Witness for C10 at a concrete active state and the follow-up name
`"ep2"`. -/
theorem stop_clears_refs_start_unblocked_witness :
    (stop_recording
        ⟨some true, some false, some "recordings/x.wav", 0⟩).1.record_thread =
      none ∧
    CtrlAct.spawnFinisher "recordings/x.wav" ∈
      (stop_recording ⟨some true, some false, some "recordings/x.wav", 0⟩).2 ∧
    start_recording
        (stop_recording
          ⟨some true, some false, some "recordings/x.wav", 0⟩).1
        (some "ep2") =
      ({ (stop_recording
            ⟨some true, some false, some "recordings/x.wav", 0⟩).1 with
          record_thread := some true,
          record_stop_event := some false,
          current_recording_path :=
            some ("recordings/" ++ sanitize_episode_name "ep2" ++ ".wav") },
       [CtrlAct.spawnRecorder
          ("recordings/" ++ sanitize_episode_name "ep2" ++ ".wav")]) := by
  have h := stop_clears_refs_start_unblocked
    ⟨some true, some false, some "recordings/x.wav", 0⟩ (by decide) false
    "recordings/x.wav" rfl rfl
  exact ⟨h.1, h.2.2.2.2.1, h.2.2.2.2.2 "ep2" (by decide)⟩
